import Mathlib

/-!
Verification of the Unity FBX exporter add-on (`__init__.py`).

The add-on prepares a Blender scene for export to Unity's axis convention:
it uniquifies shared datablocks, bakes modifiers, recursively rewrites every
object's transform (the `fix_object` algorithm), restores shared data and
visibility, invokes the stock FBX serializer, and rolls the scene back via
the undo stack.

The embedding below models the scene-graph host (Blender) with clean,
always-consistent matrix accessor semantics: an object's world matrix is
`parentWorld * matrix_parent_inverse * matrix_basis`, `matrix_local` is
`matrix_parent_inverse * matrix_basis`, and setters write through
immediately.  Matrices are over `ℚ`: the only rotations involved are by
±90° about X, whose matrices are exact rational matrices.
-/

namespace UnityFbx

/-- 4×4 homogeneous transform matrices over `ℚ`. -/
abbrev Mat4 := Matrix (Fin 4) (Fin 4) ℚ

/-- 3×3 linear (rotation) matrices over `ℚ`. -/
abbrev Mat3 := Matrix (Fin 3) (Fin 3) ℚ

/-- `mathutils.Matrix.Rotation(math.radians(-90.0), 4, 'X')`:
rotation by −90° about X (cos = 0, sin = −1). -/
def rotXneg90 : Mat4 :=
  Matrix.of fun i j =>
    match i.val, j.val with
    | 0, 0 => 1
    | 1, 2 => 1
    | 2, 1 => -1
    | 3, 3 => 1
    | _, _ => 0

/-- `mathutils.Matrix.Rotation(math.radians(90.0), 4, 'X')`:
rotation by +90° about X (cos = 0, sin = 1). -/
def rotXpos90 : Mat4 :=
  Matrix.of fun i j =>
    match i.val, j.val with
    | 0, 0 => 1
    | 1, 2 => -1
    | 2, 1 => 1
    | 3, 3 => 1
    | _, _ => 0

/-- The 3×3 linear part of the −90° X rotation. -/
def rotXneg90lin : Mat3 :=
  Matrix.of fun i j =>
    match i.val, j.val with
    | 0, 0 => 1
    | 1, 2 => 1
    | 2, 1 => -1
    | _, _ => 0

/-- Linear (upper-left 3×3) part of a homogeneous 4×4 matrix. -/
def linPart (m : Mat4) : Mat3 :=
  Matrix.of fun i j => m ⟨i.val, Nat.lt_succ_of_lt i.isLt⟩ ⟨j.val, Nat.lt_succ_of_lt j.isLt⟩

/-- Translation column of a homogeneous 4×4 matrix. -/
def transPart (m : Mat4) : Fin 3 → ℚ :=
  fun i => m ⟨i.val, Nat.lt_succ_of_lt i.isLt⟩ 3

/-- Homogeneous embedding of a 3×3 linear matrix into a 4×4 matrix. -/
def homOf (r : Mat3) : Mat4 :=
  Matrix.of fun i j =>
    match i.val, j.val with
    | 0, 0 => r 0 0
    | 0, 1 => r 0 1
    | 0, 2 => r 0 2
    | 1, 0 => r 1 0
    | 1, 1 => r 1 1
    | 1, 2 => r 1 2
    | 2, 0 => r 2 0
    | 2, 1 => r 2 1
    | 2, 2 => r 2 2
    | 3, 3 => 1
    | _, _ => 0

/-- Pure-translation homogeneous matrix. -/
def transMat (v : Fin 3 → ℚ) : Mat4 :=
  Matrix.of fun i j =>
    if i = j then 1
    else if hi : i.val < 3 then
      if j.val = 3 then v ⟨i.val, hi⟩ else 0
    else 0

/-- `Matrix.inverted()` of mathutils, total over `ℚ` via the adjugate
(junk on singular input, where the Python call would raise). -/
def matInv4 (m : Mat4) : Mat4 := (Matrix.det m)⁻¹ • Matrix.adjugate m

lemma matInv4_one : matInv4 (1 : Mat4) = 1 := by
  simp [matInv4]

lemma rotXpos90_mul_rotXneg90 : rotXpos90 * rotXneg90 = 1 := by
  ext i j
  fin_cases i <;> fin_cases j <;>
    simp [rotXpos90, rotXneg90, Matrix.mul_apply, Fin.sum_univ_four, Matrix.one_apply]

lemma linPart_rotXneg90 : linPart rotXneg90 = rotXneg90lin := by
  ext i j
  fin_cases i <;> fin_cases j <;>
    simp [linPart, rotXneg90, rotXneg90lin]

lemma homOf_rotXneg90lin : homOf rotXneg90lin = rotXneg90 := by
  ext i j
  fin_cases i <;> fin_cases j <;>
    norm_num [homOf, rotXneg90lin, rotXneg90]

lemma transMat_transPart_rotXneg90 : transMat (transPart rotXneg90) = 1 := by
  ext i j
  fin_cases i <;> fin_cases j <;>
    simp [transMat, transPart, rotXneg90, Matrix.one_apply]

lemma rotXneg90lin_orthonormal :
    linPart rotXneg90 * Matrix.transpose (linPart rotXneg90) = 1 := by
  rw [linPart_rotXneg90]
  ext i j
  fin_cases i <;> fin_cases j <;>
    simp [rotXneg90lin, Matrix.mul_apply, Fin.sum_univ_three, Matrix.one_apply,
      Matrix.transpose_apply]

/-- Multiplying by the +90° X rotation on the right leaves the translation
column untouched. -/
lemma transPart_mul_rotXpos90 (m : Mat4) : transPart (m * rotXpos90) = transPart m := by
  funext i
  fin_cases i <;>
    simp [transPart, rotXpos90, Matrix.mul_apply, Fin.sum_univ_four]

/-- The homogeneous embedding is multiplicative. -/
lemma homOf_mul (a b : Mat3) : homOf (a * b) = homOf a * homOf b := by
  ext i j
  fin_cases i <;> fin_cases j <;>
    norm_num [homOf, Matrix.mul_apply, Fin.sum_univ_four, Fin.sum_univ_three]

/-- The net effect of steps 3–5 on the geometry's world placement cancels:
an extra +90° on the node times −90° baked into the payload is the identity. -/
lemma placement_cancel (x : Mat4) (d : Mat3) :
    x * rotXpos90 * homOf (rotXneg90lin * d) = x * homOf d := by
  rw [homOf_mul, homOf_rotXneg90lin, mul_assoc x rotXpos90, ← mul_assoc rotXpos90,
    rotXpos90_mul_rotXneg90, one_mul]

/-!
## The Transform Rewriter (`reset_parent_inverse`, `apply_rotation`, `fix_object`)

An object carries the fields the rewriter reads and writes: its kind tag,
view-layer membership, the `matrix_basis` / `matrix_parent_inverse`
channels and the rotation accumulated into its geometry payload by the
host's bake operation.  Host accessor semantics (clean, written through):
`matrix_world = parentWorld * matrix_parent_inverse * matrix_basis` for a
parented object and `matrix_basis` for a parentless one; `matrix_local`
is the same without the parent factor.
-/

structure ObjData where
  otype : String
  inViewLayer : Bool
  basis : Mat4
  parentinv : Mat4
  dataRot : Mat3

/-- `ob.matrix_world`, given the parent's current world matrix. -/
def worldOf (hasParent : Bool) (pw : Mat4) (o : ObjData) : Mat4 :=
  if hasParent then pw * o.parentinv * o.basis else o.basis

/-- `ob.matrix_local` (parent-relative local matrix, parent-inverse included). -/
def matLocal (hasParent : Bool) (o : ObjData) : Mat4 :=
  if hasParent then o.parentinv * o.basis else o.basis

/-- Setter for `ob.matrix_local`: writes the basis channels so that
`parentinv * basis` equals the assigned matrix. -/
def setMatLocal (hasParent : Bool) (o : ObjData) (m : Mat4) : ObjData :=
  if hasParent then { o with basis := matInv4 o.parentinv * m } else { o with basis := m }

/-- `reset_parent_inverse` (src lines 117–121): if the object has a parent,
capture `ob.matrix_world`, reset the parent-inverse matrix to identity and
set `matrix_basis := parent.matrix_world.inverted() @ mat_world`. -/
def reset_parent_inverse (hasParent : Bool) (pw : Mat4) (o : ObjData) : ObjData :=
  if hasParent then
    let matWorld := worldOf true pw o
    { o with parentinv := 1, basis := matInv4 pw * matWorld }
  else o

/-- Modelled from the spec: the host primitive
`bpy.ops.object.transform_apply(location=False, rotation=True, scale=False)`
acting on one object (Blender itself is outside this repository).  On a
basis whose linear part is orthonormal (the only shape the add-on invokes
it on: a pure ±90° rotation), it bakes that rotation into the payload and
zeroes the rotation channel, leaving location and scale channels alone;
otherwise it is modelled as a no-op. -/
def transform_apply_rot (o : ObjData) : ObjData :=
  if linPart o.basis * Matrix.transpose (linPart o.basis) = 1 then
    { o with basis := transMat (transPart o.basis),
             dataRot := linPart o.basis * o.dataRot }
  else o

/-- The per-node body of `fix_object` (src lines 132–145): reset the
parent inverse, save the local matrix, substitute a pure X−90 matrix,
bake the rotation, then reapply the saved local matrix times X+90. -/
def fix_steps (hasParent : Bool) (pw : Mat4) (o : ObjData) : ObjData :=
  let o1 := reset_parent_inverse hasParent pw o
  let matOriginal := matLocal hasParent o1
  let o2 := setMatLocal hasParent o1 rotXneg90
  let o3 := transform_apply_rot o2
  setMatLocal hasParent o3 (matOriginal * rotXpos90)

mutual

inductive OTree where
| node (obj : ObjData) (children : OForest)

inductive OForest where
| nil
| cons (t : OTree) (ts : OForest)

end

mutual

/-- `fix_object` (src lines 130–150): apply the five rewrite steps to the
object when it is in the current view layer, then recurse into every child
(children may be in the view layer even if their parent is not). -/
def fix_object (hasParent : Bool) (pw : Mat4) : OTree → OTree
| OTree.node o cs =>
  let o2 := if o.inViewLayer then fix_steps hasParent pw o else o
  OTree.node o2 (fixChildren (worldOf hasParent pw o2) cs)

def fixChildren (pw : Mat4) : OForest → OForest
| OForest.nil => OForest.nil
| OForest.cons t ts => OForest.cons (fix_object true pw t) (fixChildren pw ts)

end

/-- The root filter of src line 163: `item.type` is one of the six kinds
(parentlessness is the forest structure). -/
def rootTypeAllowed (t : String) : Bool :=
  t = "EMPTY" || t = "MESH" || t = "ARMATURE" || t = "FONT" || t = "CURVE" || t = "SURFACE"

/-- The kind tag of a tree's root object. -/
def rootObjType : OTree → String
| OTree.node o _ => o.otype

/-- The fix phase of `export_unity_fbx` (src lines 163 and 196–198) on one
parentless object: `fix_object` runs only when the root filter admits it. -/
def fixRoot (t : OTree) : OTree :=
  if rootTypeAllowed (rootObjType t) then fix_object false 1 t else t

/-- The fix phase over the scene's parentless objects. -/
def fixPhase (forest : List OTree) : List OTree := forest.map fixRoot

/-- Characterization of the five rewrite steps on a parentless object. -/
lemma fix_steps_false (pw : Mat4) (o : ObjData) :
    fix_steps false pw o =
      { o with basis := o.basis * rotXpos90, dataRot := rotXneg90lin * o.dataRot } := by
  simp only [fix_steps, reset_parent_inverse, matLocal, setMatLocal, transform_apply_rot,
    if_neg (Bool.false_ne_true), Bool.false_eq_true, if_false]
  rw [if_pos rotXneg90lin_orthonormal, linPart_rotXneg90]

/-- Characterization of the five rewrite steps on a parented object. -/
lemma fix_steps_true (pw : Mat4) (o : ObjData) :
    fix_steps true pw o =
      { o with parentinv := 1,
               basis := matInv4 pw * (pw * o.parentinv * o.basis) * rotXpos90,
               dataRot := rotXneg90lin * o.dataRot } := by
  simp only [fix_steps, reset_parent_inverse, matLocal, setMatLocal, transform_apply_rot,
    worldOf, if_true, if_pos rfl]
  rw [matInv4_one, one_mul, one_mul, if_pos rotXneg90lin_orthonormal, linPart_rotXneg90,
    matInv4_one, one_mul]

/-!
## Selection-level model of `apply_rotation` (src lines 124–127)

`apply_rotation` deselects everything, selects the one object, and invokes
the host bake with `location=False, rotation=True, scale=False`; the host
operation acts on the selected objects.
-/

structure SelObj where
  name : String
  obj : ObjData
  selected : Bool

/-- `bpy.ops.object.select_all(action='DESELECT')`. -/
def select_all_deselect (scene : List SelObj) : List SelObj :=
  scene.map fun s => { s with selected := false }

/-- `ob.select_set(True)`, with the object addressed by name. -/
def select_set_true (nm : String) (scene : List SelObj) : List SelObj :=
  scene.map fun s => if s.name = nm then { s with selected := true } else s

/-- The host bake acting on every selected object of the scene. -/
def transform_apply_selected (scene : List SelObj) : List SelObj :=
  scene.map fun s => if s.selected then { s with obj := transform_apply_rot s.obj } else s

/-- `apply_rotation(ob)` (src lines 124–127). -/
def apply_rotation (scene : List SelObj) (nm : String) : List SelObj :=
  transform_apply_selected (select_set_true nm (select_all_deselect scene))

/-!
## Claim theorems for the Transform Rewriter
-/

/-- C5: parent-inverse elimination.  For a parented node, step 1 sets the
basis to `inverse(parent.world) × world` (world captured before the reset)
and the parent-inverse matrix to the identity; for a parentless node it
changes nothing. -/
theorem reset_parent_inverse_spec (pw : Mat4) (o : ObjData) :
    (reset_parent_inverse true pw o).basis = matInv4 pw * worldOf true pw o ∧
    (reset_parent_inverse true pw o).parentinv = 1 ∧
    reset_parent_inverse false pw o = o := by
  refine ⟨?_, ?_, ?_⟩ <;> simp [reset_parent_inverse]

/-- Node used by the counterexample to C1: a parentless view-layer node
with identity transform and untouched payload. -/
def plainObj : ObjData := ⟨"MESH", true, 1, 1, 1⟩

/-- C1 (counterexample): `fix_object` does NOT preserve the node's world
transform.  On a parentless view-layer node with identity world transform,
the post-fix world transform is the +90° X rotation, not the identity (the
rotation component changes by 90°, far beyond floating-point tolerance). -/
theorem fix_world_transform_not_preserved :
    fix_object false 1 (OTree.node plainObj OForest.nil) =
      OTree.node (fix_steps false 1 plainObj) OForest.nil ∧
    worldOf false 1 (fix_steps false 1 plainObj) ≠ worldOf false 1 plainObj := by
  constructor
  · simp [fix_object, fixChildren, plainObj]
  · intro h
    rw [fix_steps_false] at h
    have h2 : rotXpos90 = (1 : Mat4) := by simpa [worldOf, plainObj] using h
    have h11 := congrFun (congrFun h2 1) 1
    norm_num [rotXpos90, Matrix.one_apply] at h11

/-- C1 (amended): the fix steps transform a node's world matrix into the
pre-fix world matrix composed on the right with Rotation(+90°, X); the
world position (translation column) is preserved exactly, and the world
placement of the geometry — world matrix composed with the rotation baked
into the payload — is preserved exactly.  `hinv` states that the parent's
current world matrix is invertible. -/
theorem fix_world_transform_rotated (hp : Bool) (pw : Mat4) (o : ObjData)
    (hinv : pw * matInv4 pw = 1) :
    worldOf hp pw (fix_steps hp pw o) = worldOf hp pw o * rotXpos90 ∧
    transPart (worldOf hp pw (fix_steps hp pw o)) = transPart (worldOf hp pw o) ∧
    worldOf hp pw (fix_steps hp pw o) * homOf (fix_steps hp pw o).dataRot
      = worldOf hp pw o * homOf o.dataRot := by
  have key : worldOf hp pw (fix_steps hp pw o) = worldOf hp pw o * rotXpos90 := by
    cases hp with
    | false =>
        rw [fix_steps_false]
        simp [worldOf]
    | true =>
        rw [fix_steps_true]
        simp only [worldOf, if_true, mul_one]
        simp only [← mul_assoc]
        rw [hinv, one_mul]
  have hdr : (fix_steps hp pw o).dataRot = rotXneg90lin * o.dataRot := by
    cases hp with
    | false => rw [fix_steps_false]
    | true => rw [fix_steps_true]
  refine ⟨key, ?_, ?_⟩
  · rw [key, transPart_mul_rotXpos90]
  · rw [key, hdr, placement_cancel]

/-- Node used by the witness to the amended C1. -/
def parentedObj : ObjData := ⟨"MESH", true, 1, 1, 1⟩

/-- Witness for the amended C1 at a concrete parented node with an
invertible (identity) parent world matrix. -/
theorem fix_world_transform_rotated_witness :
    worldOf true 1 (fix_steps true 1 parentedObj) = worldOf true 1 parentedObj * rotXpos90 ∧
    transPart (worldOf true 1 (fix_steps true 1 parentedObj))
      = transPart (worldOf true 1 parentedObj) ∧
    worldOf true 1 (fix_steps true 1 parentedObj) * homOf (fix_steps true 1 parentedObj).dataRot
      = worldOf true 1 parentedObj * homOf parentedObj.dataRot :=
  fix_world_transform_rotated true 1 parentedObj (by rw [matInv4_one, mul_one])

/-- C7: a node outside the active view layer is not rewritten (its fields
are untouched), but `fix_object` still recurses into all of its children;
and any node inside the view layer does get the five rewrite steps.  Hence
for root → excluded child → included grandchild, the grandchild is still
fixed. -/
theorem fix_object_skips_non_view_layer (hp : Bool) (pw : Mat4) (o : ObjData) (cs : OForest)
    (h : o.inViewLayer = false) :
    fix_object hp pw (OTree.node o cs) = OTree.node o (fixChildren (worldOf hp pw o) cs) ∧
    ∀ (g : ObjData) (gcs : OForest), g.inViewLayer = true →
      fix_object true pw (OTree.node g gcs) =
        OTree.node (fix_steps true pw g)
          (fixChildren (worldOf true pw (fix_steps true pw g)) gcs) := by
  constructor
  · simp [fix_object, h]
  · intro g gcs hg
    simp [fix_object, hg]

/-- Excluded-from-view-layer node used by the C7 witness. -/
def exclObj : ObjData := ⟨"MESH", false, 1, 1, 1⟩

/-- In-view-layer grandchild node used by the C7 witness. -/
def grandchildObj : ObjData := ⟨"MESH", true, 1, 1, 1⟩

/-- Witness for C7 at a concrete excluded child carrying an included
grandchild. -/
theorem fix_object_skips_non_view_layer_witness :
    (fix_object true 1 (OTree.node exclObj
        (OForest.cons (OTree.node grandchildObj OForest.nil) OForest.nil)) =
      OTree.node exclObj (fixChildren (worldOf true 1 exclObj)
        (OForest.cons (OTree.node grandchildObj OForest.nil) OForest.nil))) ∧
    (fix_object true (worldOf true 1 exclObj) (OTree.node grandchildObj OForest.nil) =
      OTree.node (fix_steps true (worldOf true 1 exclObj) grandchildObj)
        (fixChildren (worldOf true (worldOf true 1 exclObj)
          (fix_steps true (worldOf true 1 exclObj) grandchildObj)) OForest.nil)) :=
  ⟨(fix_object_skips_non_view_layer true 1 exclObj
      (OForest.cons (OTree.node grandchildObj OForest.nil) OForest.nil) rfl).1,
   (fix_object_skips_non_view_layer true (worldOf true 1 exclObj) exclObj
      OForest.nil rfl).2 grandchildObj OForest.nil rfl⟩

/-- C9: a parentless object whose kind is rejected by the root filter of
src line 163 is never passed to `fix_object`, so neither it nor any of its
descendants is rewritten, view-layer membership notwithstanding; the
filter admits exactly EMPTY, MESH, ARMATURE, FONT, CURVE and SURFACE, and
rejects CAMERA and LIGHT in particular. -/
theorem fix_root_filter_excludes_other_kinds (t : OTree)
    (h : rootTypeAllowed (rootObjType t) = false) :
    fixRoot t = t ∧ fixPhase [t] = [t] ∧
    rootTypeAllowed "CAMERA" = false ∧ rootTypeAllowed "LIGHT" = false ∧
    rootTypeAllowed "EMPTY" = true ∧ rootTypeAllowed "MESH" = true ∧
    rootTypeAllowed "ARMATURE" = true ∧ rootTypeAllowed "FONT" = true ∧
    rootTypeAllowed "CURVE" = true ∧ rootTypeAllowed "SURFACE" = true := by
  refine ⟨?_, ?_, rfl, rfl, rfl, rfl, rfl, rfl, rfl, rfl⟩
  · simp [fixRoot, h]
  · simp [fixPhase, fixRoot, h]

/-- Camera root with an in-view-layer mesh child, for the C9 witness. -/
def camTree : OTree :=
  OTree.node ⟨"CAMERA", true, 1, 1, 1⟩
    (OForest.cons (OTree.node ⟨"MESH", true, 1, 1, 1⟩ OForest.nil) OForest.nil)

/-- Witness for C9 at a concrete parentless camera with a view-layer
member descendant. -/
theorem fix_root_filter_excludes_other_kinds_witness :
    fixRoot camTree = camTree ∧ fixPhase [camTree] = [camTree] ∧
    rootTypeAllowed "CAMERA" = false ∧ rootTypeAllowed "LIGHT" = false ∧
    rootTypeAllowed "EMPTY" = true ∧ rootTypeAllowed "MESH" = true ∧
    rootTypeAllowed "ARMATURE" = true ∧ rootTypeAllowed "FONT" = true ∧
    rootTypeAllowed "CURVE" = true ∧ rootTypeAllowed "SURFACE" = true :=
  fix_root_filter_excludes_other_kinds camTree rfl

/-- C6: `apply_rotation` leaves the scene with exactly the addressed node
selected (every other node deselected and untouched), and the bake —
invoked with only the rotation flag — commits the rotation into the
payload while passing the translation and scale channels through: on a
basis with orthonormal linear part the new basis is the pure translation
part (rotation zeroed, scale still identity) and the payload picks up the
former rotation. -/
theorem apply_rotation_selection_and_channels (scene : List SelObj) (nm : String) :
    apply_rotation scene nm = scene.map (fun s =>
      if s.name = nm then { s with selected := true, obj := transform_apply_rot s.obj }
      else { s with selected := false }) ∧
    ∀ o : ObjData, linPart o.basis * Matrix.transpose (linPart o.basis) = 1 →
      transform_apply_rot o =
        { o with basis := transMat (transPart o.basis),
                 dataRot := linPart o.basis * o.dataRot } := by
  constructor
  · simp only [apply_rotation, transform_apply_selected, select_set_true, select_all_deselect,
      List.map_map]
    refine List.map_congr_left ?_
    intro s _
    by_cases hs : s.name = nm <;> simp [hs, Function.comp]
  · intro o ho
    simp [transform_apply_rot, ho]

/-- Concrete object (basis = pure −90° X rotation, as at the add-on's call
site) used by the C6 witness. -/
def bakeObj : ObjData := ⟨"MESH", true, rotXneg90, 1, 1⟩

/-- Concrete two-object scene used by the C6 witness. -/
def bakeScene : List SelObj :=
  [⟨"Cube", bakeObj, true⟩, ⟨"Suzanne", plainObj, true⟩]

/-- Witness for C6 on a concrete scene and node. -/
theorem apply_rotation_selection_and_channels_witness :
    apply_rotation bakeScene "Cube" = bakeScene.map (fun s =>
      if s.name = "Cube" then { s with selected := true, obj := transform_apply_rot s.obj }
      else { s with selected := false }) ∧
    transform_apply_rot bakeObj =
      { bakeObj with basis := transMat (transPart bakeObj.basis),
                     dataRot := linPart bakeObj.basis * bakeObj.dataRot } :=
  ⟨(apply_rotation_selection_and_channels bakeScene "Cube").1,
   (apply_rotation_selection_and_channels bakeScene "Cube").2 bakeObj
     (by rw [show bakeObj.basis = rotXneg90 from rfl]; exact rotXneg90lin_orthonormal)⟩

/-!
## The Modifier Baker (`apply_object_modifiers`, src lines 99–114)
-/

structure PMod where
  mtype : String
  show_viewport : Bool

structure BObj where
  name : String
  otype : String
  inViewLayer : Bool
  mods : List PMod
  selected : Bool

/-- The bypass flag of src lines 104–107: set when the object's modifier
list contains a modifier of type ARMATURE — the loop never consults the
modifier's enabled (`show_viewport`) state. -/
def bypass_modifiers (ob : BObj) : Bool :=
  ob.mods.any fun m => m.mtype == "ARMATURE"

/-- The selection pass of src lines 101–109: deselect all, then select
every object of the current view layer whose bypass flag is off. -/
def select_for_bake (scene : List BObj) : List BObj :=
  scene.map fun ob => { ob with selected := ob.inViewLayer && !bypass_modifiers ob }

/-- Src lines 111–114.  Modelled from the spec for the host operation
`bpy.ops.object.convert(target='MESH')` (Blender itself is outside this
repository): converts each selected object to a concrete-geometry mesh,
collapsing its modifier stack; the `poll()` guard skips the call when it
is inapplicable (modelled: no object selected). -/
def convert_selected_to_mesh (scene : List BObj) : List BObj :=
  if scene.any (fun ob => ob.selected) then
    scene.map fun ob =>
      if ob.selected then { ob with otype := "MESH", mods := [] } else ob
  else scene

/-- `apply_object_modifiers` (src lines 99–114). -/
def apply_object_modifiers (scene : List BObj) : List BObj :=
  convert_selected_to_mesh (select_for_bake scene)

/-- The Modifier Baker selection rule as the spec words it (for
comparison with the code's rule): nodes whose modifier list contains no
ENABLED skeletal-deform modifier. -/
def specSelectsForBake (ob : BObj) : Bool :=
  ob.inViewLayer && !(ob.mods.any fun m => m.mtype == "ARMATURE" && m.show_viewport)

/-- The code's effective eligibility rule: in the view layer and carrying
no ARMATURE modifier at all. -/
def eligibleForBake (ob : BObj) : Bool :=
  ob.inViewLayer && !bypass_modifiers ob

/-- A view-layer node whose only ARMATURE modifier is disabled. -/
def disabledArmObj : BObj := ⟨"Rig", "CURVE", true, [⟨"ARMATURE", false⟩], false⟩

/-- C3 (counterexample): a node whose only ARMATURE modifier is disabled is
selected per the spec's rule, but `apply_object_modifiers` does not select
it and leaves it entirely unconverted (kind and modifier stack intact). -/
theorem modifier_baker_disabled_armature_divergence :
    specSelectsForBake disabledArmObj = true ∧
    select_for_bake [disabledArmObj] = [disabledArmObj] ∧
    apply_object_modifiers [disabledArmObj] = [disabledArmObj] := by
  refine ⟨rfl, ?_, ?_⟩ <;>
    simp [select_for_bake, apply_object_modifiers, convert_selected_to_mesh,
      bypass_modifiers, disabledArmObj]

/-- C3 (amended): the Modifier Baker selects exactly the view-layer nodes
carrying no ARMATURE modifier whatsoever (enabled or disabled) and
converts those to concrete meshes with collapsed stacks; every node with
an ARMATURE modifier — enabled or not — is left with its kind and
modifier stack untouched. -/
theorem apply_object_modifiers_no_armature (scene : List BObj) :
    apply_object_modifiers scene =
      (if scene.any eligibleForBake then
        scene.map fun ob =>
          if eligibleForBake ob then { ob with otype := "MESH", mods := [], selected := true }
          else { ob with selected := false }
      else scene.map fun ob => { ob with selected := false }) ∧
    ∀ ob : BObj, (ob.mods.any fun m => m.mtype == "ARMATURE") = true →
      eligibleForBake ob = false := by
  have hfun : ((fun ob : BObj => ob.selected) ∘ fun ob =>
      { ob with selected := ob.inViewLayer && !bypass_modifiers ob }) = eligibleForBake := by
    funext ob
    rfl
  have hany : (select_for_bake scene).any (fun ob => ob.selected) = scene.any eligibleForBake := by
    simp only [select_for_bake, List.any_map, hfun]
  constructor
  · rw [apply_object_modifiers, convert_selected_to_mesh, hany]
    by_cases hg : scene.any eligibleForBake = true
    · simp only [hg, if_true]
      rw [select_for_bake, List.map_map]
      refine List.map_congr_left ?_
      intro ob _
      by_cases he : eligibleForBake ob = true
      · have he2 : (ob.inViewLayer && !bypass_modifiers ob) = true := he
        simp [Function.comp, he, he2]
      · simp only [Bool.not_eq_true] at he
        have he2 : (ob.inViewLayer && !bypass_modifiers ob) = false := he
        simp [Function.comp, he, he2]
    · simp only [Bool.not_eq_true] at hg
      simp only [hg, Bool.false_eq_true, if_false]
      rw [select_for_bake]
      refine List.map_congr_left ?_
      intro ob hob
      have hel : eligibleForBake ob = false := by
        have h := List.any_eq_false.mp hg ob hob
        simp only [Bool.not_eq_true] at h
        exact h
      have he2 : (ob.inViewLayer && !bypass_modifiers ob) = false := hel
      simp [he2]
  · intro ob h
    simp [eligibleForBake, bypass_modifiers, h]

/-- Witness for the amended C3: a concrete scene holding a modifier-free
mesh (baked), a node with an enabled ARMATURE modifier and a node with a
disabled one (both untouched). -/
def bakerScene : List BObj :=
  [⟨"Cube", "MESH", true, [], false⟩,
   ⟨"Skinned", "MESH", true, [⟨"ARMATURE", true⟩], false⟩,
   disabledArmObj]

theorem apply_object_modifiers_no_armature_witness :
    apply_object_modifiers bakerScene =
      (if bakerScene.any eligibleForBake then
        bakerScene.map fun ob =>
          if eligibleForBake ob then { ob with otype := "MESH", mods := [], selected := true }
          else { ob with selected := false }
      else bakerScene.map fun ob => { ob with selected := false }) ∧
    eligibleForBake disabledArmObj = false :=
  ⟨(apply_object_modifiers_no_armature bakerScene).1,
   (apply_object_modifiers_no_armature bakerScene).2 disabledArmObj rfl⟩

/-!
## The Export Driver (`export_unity_fbx`, src lines 153–251)

The undo-stack host: `undo_push` snapshots the current scene,
`bpy.ops.ed.undo()` steps back to the previous snapshot.  The body of the
`try` block (fix loop, shared-data restore, visibility/selection restore
and the serializer call, src lines 194–234) is abstracted as a `region`
returning the scene it produced and the exception it raised, if any; the
preparation mutations before the `try` (src lines 172–192) as `prep`.
-/

structure Host (α : Type) where
  scene : α
  undoStack : List α

/-- `bpy.ops.ed.undo_push(...)`. -/
def undo_push {α : Type} (h : Host α) : Host α :=
  { h with undoStack := h.scene :: h.undoStack }

/-- `bpy.ops.ed.undo()`: restore the snapshot below the current one. -/
def undo_step {α : Type} (h : Host α) : Host α :=
  match h.undoStack with
  | _ :: prev :: rest => { scene := prev, undoStack := prev :: rest }
  | _ => h

inductive OpResult where
| FINISHED

/-- `export_unity_fbx` (src lines 153–251), scene-state view: snapshot,
prepare, run the protected region; on exception push/undo/push back to the
pre-run snapshot, print, and return `{'FINISHED'}`; on success do the same
rollback and return `{'FINISHED'}`. -/
def export_unity_fbx {α ε : Type} (s0 : α) (prep : α → α) (region : α → α × Option ε) :
    OpResult × α × List String :=
  let h0 := undo_push { scene := s0, undoStack := [] }
  let h1 : Host α := { h0 with scene := prep h0.scene }
  let r := region h1.scene
  match r.2 with
  | some _ =>
      let h4 := undo_push (undo_step (undo_push { h1 with scene := r.1 }))
      (OpResult.FINISHED, h4.scene, ["File not saved."])
  | none =>
      let h4 := undo_push (undo_step (undo_push { h1 with scene := r.1 }))
      (OpResult.FINISHED, h4.scene, ["FBX file for Unity saved."])

/-- C2: when the protected region raises, `export_unity_fbx` rolls the
scene back to the pre-run snapshot, only logs the failure, and still
returns `{'FINISHED'}` — the same status a successful run returns, so the
caller cannot distinguish failure from success by the return value. -/
theorem export_unity_fbx_swallows_failure {α ε : Type} (s0 : α) (prep : α → α)
    (region : α → α × Option ε) (e : ε)
    (hfail : (region (prep s0)).2 = some e) :
    export_unity_fbx s0 prep region = (OpResult.FINISHED, s0, ["File not saved."]) ∧
    (export_unity_fbx s0 prep region).1 =
      (export_unity_fbx s0 prep fun s => ((region s).1, (none : Option ε))).1 := by
  constructor
  · simp [export_unity_fbx, undo_push, undo_step, hfail]
  · simp [export_unity_fbx, undo_push, undo_step, hfail]

/-- Witness for C2: a concrete run whose region always raises rolls back
to the initial scene and reports `FINISHED`. -/
theorem export_unity_fbx_swallows_failure_witness :
    export_unity_fbx (0 : Nat) id (fun s => (s + 1, some ())) =
      (OpResult.FINISHED, 0, ["File not saved."]) ∧
    (export_unity_fbx (0 : Nat) id (fun s => (s + 1, some ()))).1 =
      (export_unity_fbx (0 : Nat) id fun s => (((fun t => (t + 1, some ())) s).1,
        (none : Option Unit))).1 :=
  export_unity_fbx_swallows_failure 0 id (fun s => (s + 1, some ())) () rfl

/-!
## Serializer parameter overlay (src lines 226–231)
-/

/-- A Python keyword-argument map. -/
def ParamMap : Type := String → Option String

/-- `dict(filepath=filepath, apply_scale_options='FBX_SCALE_UNITS')`
(src lines 226–229). -/
def base_params (filepath : String) : ParamMap :=
  fun k =>
    if k = "filepath" then some filepath
    else if k = "apply_scale_options" then some "FBX_SCALE_UNITS"
    else none

/-- `params.update(kwargs)` (src line 231): the updating map wins. -/
def dict_update (p q : ParamMap) : ParamMap :=
  fun k =>
    match q k with
    | some v => some v
    | none => p k

/-- The parameter set handed to `bpy.ops.export_scene.fbx` (src line 234). -/
def build_params (filepath : String) (kwargs : ParamMap) : ParamMap :=
  dict_update (base_params filepath) kwargs

/-- C8: the serializer parameters start from the single fixed default
`apply_scale_options='FBX_SCALE_UNITS'` plus the destination path, then
every caller-supplied option is overlaid with the caller winning on
conflict; in particular a caller-supplied unit-scale mode replaces the
built-in default. -/
theorem build_params_caller_wins (fp : String) (kwargs : ParamMap) :
    (∀ k v, kwargs k = some v → build_params fp kwargs k = some v) ∧
    (kwargs "apply_scale_options" = none →
      build_params fp kwargs "apply_scale_options" = some "FBX_SCALE_UNITS") ∧
    (∀ v, kwargs "apply_scale_options" = some v →
      build_params fp kwargs "apply_scale_options" = some v) ∧
    (kwargs "filepath" = none → build_params fp kwargs "filepath" = some fp) := by
  refine ⟨?_, ?_, ?_, ?_⟩
  · intro k v hk
    simp [build_params, dict_update, hk]
  · intro hk
    simp [build_params, dict_update, base_params, hk]
  · intro v hk
    simp [build_params, dict_update, hk]
  · intro hk
    simp [build_params, dict_update, base_params, hk]

/-- A caller option map overriding the unit-scale mode. -/
def overrideKwargs : ParamMap :=
  fun k => if k = "apply_scale_options" then some "FBX_SCALE_ALL" else none

/-- Witness for C8: the caller's `FBX_SCALE_ALL` replaces the built-in
`FBX_SCALE_UNITS` default. -/
theorem build_params_caller_wins_witness :
    build_params "out.fbx" overrideKwargs "apply_scale_options" = some "FBX_SCALE_ALL" :=
  (build_params_caller_wins "out.fbx" overrideKwargs).2.2.1 "FBX_SCALE_ALL" rfl

/-!
## The Datablock Uniquifier (`make_single_user_data`, src lines 76–96) and
the shared-data restore (src lines 201–202)

Payload datablocks are identified by numbers; a fresh counter stands for
`ob.data.copy()`.  The source's outer test `ob.data.users > 1` (raw user
count, fake users included) followed by the recomputation of the actual
user list and `len(users) > 1` collapses to the single actual-user test,
since the raw count bounds the actual count from above.  The
`shared_data[ob.name] = ob.data` dict insert is modelled as an append
(Blender object names are unique), and the restore loop walks the map in
insertion order re-pointing objects by name.
-/

structure UObj where
  name : String
  otype : String
  dataId : Option Nat
  mods : List PMod

structure UState where
  objs : List UObj
  shared : List (String × Nat)
  fresh : Nat

/-- `len([mod for mod in user.modifiers if mod.show_viewport])` (src line 91). -/
def enabledModCount (o : UObj) : Nat :=
  (o.mods.filter fun m => m.show_viewport).length

/-- One iteration of the `make_single_user_data` loop, at the object with
index `i` of the (stable) object collection. -/
def msudStep (s : UState) (i : Nat) : UState :=
  match s.objs[i]? with
  | none => s
  | some ob =>
    match ob.dataId with
    | none => s
    | some d =>
      let users := s.objs.filter fun o => o.dataId == some d
      if 1 < users.length then
        let modifiers := (users.map enabledModCount).sum
        let shared2 :=
          if ob.otype == "MESH" && modifiers == 0 then s.shared ++ [(ob.name, d)]
          else s.shared
        { objs := s.objs.set i { ob with dataId := some s.fresh },
          shared := shared2,
          fresh := s.fresh + 1 }
      else s

/-- `make_single_user_data` (src lines 76–96): iterate over the object
collection, uniquifying every multi-user payload. -/
def make_single_user_data (s : UState) : UState :=
  (List.range s.objs.length).foldl msudStep s

/-- The restore loop of src lines 201–202:
`bpy.data.objects[item].data = shared_data[item]`. -/
def restore_shared (objs : List UObj) (shared : List (String × Nat)) : List UObj :=
  shared.foldl
    (fun acc p => acc.map fun o => if o.name == p.1 then { o with dataId := some p.2 } else o)
    objs

/-- Uniquify then restore: the two phases of a full run that touch payload
identity (the fix phase rewrites matrices and payload contents, never
which payload an object references). -/
def uniquifyAndRestore (objs : List UObj) (fresh : Nat) : List UObj :=
  let s := make_single_user_data ⟨objs, [], fresh⟩
  restore_shared s.objs s.shared

/-- Two mesh nodes sharing payload `0`, no modifiers. -/
def remergeScene : List UObj :=
  [⟨"A", "MESH", some 0, []⟩, ⟨"B", "MESH", some 0, []⟩]

/-- Same two nodes, but the first carries an enabled SUBSURF modifier. -/
def noRemergeScene : List UObj :=
  [⟨"A", "MESH", some 0, [⟨"SUBSURF", true⟩]⟩, ⟨"B", "MESH", some 0, []⟩]

/-- C4: two MESH nodes sharing one payload and carrying no enabled
modifiers both reference the original payload identity again after
uniquify + restore; with an enabled modifier on one of them, the mapping
is not recorded, no re-merge happens, and the two nodes end up on
distinct payloads. -/
theorem shared_mesh_remerge_scenarios :
    (uniquifyAndRestore remergeScene 1).map (fun o => o.dataId) = [some 0, some 0] ∧
    (make_single_user_data ⟨noRemergeScene, [], 1⟩).shared = [] ∧
    (uniquifyAndRestore noRemergeScene 1).map (fun o => o.dataId) = [some 1, some 0] := by
  refine ⟨?_, ?_, ?_⟩ <;> rfl

/-!
## C10: the general n-sharers uniquification invariant
-/

/-- Stamp a run of objects with consecutive fresh payload ids starting at
`f0` — the shape of the private copies handed out by the uniquifier. -/
def stamped (f0 : Nat) : List UObj → List UObj
| [] => []
| o :: t => { o with dataId := some f0 } :: stamped (f0 + 1) t

lemma stamped_length (L : List UObj) (f0 : Nat) : (stamped f0 L).length = L.length := by
  induction L generalizing f0 with
  | nil => rfl
  | cons o t ih => simp [stamped, ih]

lemma stamped_append (A B : List UObj) (f0 : Nat) :
    stamped f0 (A ++ B) = stamped f0 A ++ stamped (f0 + A.length) B := by
  induction A generalizing f0 with
  | nil => simp [stamped]
  | cons o t ih =>
    simp only [List.cons_append, stamped, List.length_cons, List.append_eq]
    rw [show f0 + (t.length + 1) = f0 + 1 + t.length from by omega, ih]

lemma stamped_filter_eq_nil (L : List UObj) (d f0 : Nat) (hd : d < f0) :
    (stamped f0 L).filter (fun o => o.dataId == some d) = [] := by
  induction L generalizing f0 with
  | nil => rfl
  | cons o t ih =>
    have hne : (({ o with dataId := some f0 } : UObj).dataId == some d) = false := by
      simp
      omega
    simp only [stamped, List.filter_cons, hne, Bool.false_eq_true, if_false]
    exact ih (f0 + 1) (by omega)

lemma stamped_names (L : List UObj) (f0 : Nat) :
    (stamped f0 L).map (fun o => o.name) = L.map (fun o => o.name) := by
  induction L generalizing f0 with
  | nil => rfl
  | cons o t ih => simp [stamped, ih]

lemma set_append_len {α : Type} (A B : List α) (y : α) :
    (A ++ B).set A.length y = A ++ B.set 0 y := by
  induction A with
  | nil => simp
  | cons a t ih => simp [List.set, ih]

lemma set_append_of_len {α : Type} (A B : List α) (y : α) (k : Nat) (h : A.length = k) :
    (A ++ B).set k y = A ++ B.set 0 y := by
  subst h
  exact set_append_len A B y

/-- Every object of the restored list carries the original payload `d`,
provided every restoration-map entry re-points to `d` and every object
either already holds `d` or is named in the map. -/
lemma restore_shared_all_d (d : Nat) :
    ∀ (shared : List (String × Nat)) (objs : List UObj),
      (∀ p ∈ shared, p.2 = d) →
      (∀ o ∈ objs, o.dataId = some d ∨ o.name ∈ shared.map Prod.fst) →
      ∀ o ∈ restore_shared objs shared, o.dataId = some d := by
  intro shared
  induction shared with
  | nil =>
    intro objs _ hcov o ho
    rcases hcov o ho with h | h
    · exact h
    · simp at h
  | cons p rest ih =>
    intro objs hsnd hcov o ho
    have hstep : restore_shared objs (p :: rest) =
        restore_shared
          (objs.map fun o => if o.name == p.1 then { o with dataId := some p.2 } else o)
          rest := rfl
    rw [hstep] at ho
    refine ih _ (fun q hq => hsnd q (List.mem_cons_of_mem _ hq)) ?_ o ho
    intro o2 ho2
    rcases List.mem_map.mp ho2 with ⟨o0, ho0, rfl⟩
    by_cases hn : (o0.name == p.1) = true
    · left
      have hpd : p.2 = d := hsnd p (List.mem_cons_self _ _)
      simp [hn, hpd]
    · rcases hcov o0 ho0 with h | h
      · left
        simpa [hn] using h
      · right
        simp only [List.map_cons, List.mem_cons] at h
        rcases h with h1 | h1
        · exact absurd (by simp [h1]) hn
        · simpa [hn] using h1

/-- The loop invariant of `make_single_user_data` on a scene of objects
all sharing payload `d` with no enabled modifiers: after the first `k`
iterations (any `k` up to `length`), the first `k` objects carry the
consecutive fresh copies, the rest still carry `d`, and exactly the first
`k` objects are recorded in the restoration map. -/
lemma msud_invariant (L : List UObj) (d f0 : Nat)
    (hAll : ∀ o ∈ L, o.dataId = some d ∧ o.otype = "MESH" ∧ enabledModCount o = 0)
    (hd : d < f0) :
    ∀ k, k + 1 ≤ L.length →
      (List.range k).foldl msudStep ⟨L, [], f0⟩ =
        ⟨stamped f0 (L.take k) ++ L.drop k,
         (L.take k).map (fun o => (o.name, d)), f0 + k⟩ := by
  intro k
  induction k with
  | zero =>
    intro _
    simp [stamped]
  | succ k ih =>
    intro hk2
    have hkn : k < L.length := by omega
    rw [List.range_succ, List.foldl_append, ih (by omega)]
    simp only [List.foldl_cons, List.foldl_nil]
    obtain ⟨hdid, hty, hmc⟩ := hAll L[k] (List.getElem_mem hkn)
    have hlen : (stamped f0 (L.take k)).length = k := by
      rw [stamped_length, List.length_take]
      omega
    have hobj : (stamped f0 (L.take k) ++ L.drop k)[k]? = some L[k] := by
      rw [List.getElem?_append_right (by omega)]
      rw [hlen, Nat.sub_self, List.getElem?_drop, Nat.add_zero]
      exact List.getElem?_eq_getElem hkn
    have husers : (stamped f0 (L.take k) ++ L.drop k).filter
        (fun o => o.dataId == some d) = L.drop k := by
      rw [List.filter_append, stamped_filter_eq_nil _ _ _ hd, List.nil_append]
      refine List.filter_eq_self.mpr ?_
      intro o ho
      have := (hAll o (List.drop_subset _ _ ho)).1
      simp [this]
    have hmods : ((L.drop k).map enabledModCount).sum = 0 := by
      refine List.sum_eq_zero ?_
      intro x hx
      rcases List.mem_map.mp hx with ⟨o, ho, rfl⟩
      exact (hAll o (List.drop_subset _ _ ho)).2.2
    have hg : 1 < ((stamped f0 (L.take k) ++ L.drop k).filter
        (fun o => o.dataId == some d)).length := by
      rw [husers, List.length_drop]
      omega
    have htake : L.take (k + 1) = L.take k ++ [L[k]] := by
      rw [List.take_succ, List.getElem?_eq_getElem hkn]
      rfl
    have hg2 : 1 < (L.drop k).length := by
      rw [List.length_drop]
      omega
    have hsetobjs : (stamped f0 (L.take k) ++ L.drop k).set k
          { name := L[k].name, otype := L[k].otype, dataId := some (f0 + k),
            mods := L[k].mods } =
        stamped f0 (L.take (k + 1)) ++ L.drop (k + 1) := by
      rw [set_append_of_len _ _ _ _ hlen, htake, stamped_append]
      rw [show (L.take k).length = k from by rw [List.length_take]; omega]
      rw [List.drop_eq_getElem_cons hkn, List.set_cons_zero]
      rw [show stamped (f0 + k) [L[k]] =
            [{ name := L[k].name, otype := L[k].otype, dataId := some (f0 + k),
               mods := L[k].mods }] from rfl]
      rw [List.append_assoc, List.singleton_append]
    have hshr : (L.take (k + 1)).map (fun o => (o.name, d)) =
        (L.take k).map (fun o => (o.name, d)) ++ [(L[k].name, d)] := by
      rw [htake, List.map_append]
      rfl
    simp only [msudStep, hobj, hdid, if_pos hg, if_pos hg2, husers, hmods]
    have hcond : ((L[k].otype == "MESH") && ((0 : Nat) == 0)) = true := by
      rw [hty]
      rfl
    rw [if_pos hcond, hsetobjs, hshr]
    rfl

/-- C10: on a payload shared by `n ≥ 2` MESH nodes none of which has an
enabled modifier, the uniquifier hands private copies (consecutive fresh
ids) to exactly the first `n − 1` visited nodes and records exactly those
in the restoration map; the last-visited node keeps the original payload
`d` (its user count has dropped to one by then); and the restore loop
re-points the `n − 1` recorded nodes back at `d`, so all `n` nodes share
the original payload again. -/
theorem make_single_user_data_shared_payload (L : List UObj) (d f0 : Nat)
    (hAll : ∀ o ∈ L, o.dataId = some d ∧ o.otype = "MESH" ∧ enabledModCount o = 0)
    (hd : d < f0) (hn : 2 ≤ L.length) :
    make_single_user_data ⟨L, [], f0⟩ =
      ⟨stamped f0 (L.take (L.length - 1)) ++ L.drop (L.length - 1),
       (L.take (L.length - 1)).map (fun o => (o.name, d)),
       f0 + (L.length - 1)⟩ ∧
    ∀ o ∈ uniquifyAndRestore L f0, o.dataId = some d := by
  obtain ⟨m, hm⟩ : ∃ m, L.length = m + 1 := ⟨L.length - 1, by omega⟩
  have hm1 : L.length - 1 = m := by omega
  have hmn : m < L.length := by omega
  have hlen : (stamped f0 (L.take m)).length = m := by
    rw [stamped_length, List.length_take]
    omega
  have hobj : (stamped f0 (L.take m) ++ L.drop m)[m]? = some L[m] := by
    rw [List.getElem?_append_right (by omega)]
    rw [hlen, Nat.sub_self, List.getElem?_drop, Nat.add_zero]
    exact List.getElem?_eq_getElem hmn
  have husers : (stamped f0 (L.take m) ++ L.drop m).filter
      (fun o => o.dataId == some d) = L.drop m := by
    rw [List.filter_append, stamped_filter_eq_nil _ _ _ hd, List.nil_append]
    refine List.filter_eq_self.mpr ?_
    intro o ho
    have := (hAll o (List.drop_subset _ _ ho)).1
    simp [this]
  have hnguard : ¬ (1 < ((stamped f0 (L.take m) ++ L.drop m).filter
      (fun o => o.dataId == some d)).length) := by
    rw [husers, List.length_drop]
    omega
  obtain ⟨hdid, hty, hmc⟩ := hAll L[m] (List.getElem_mem hmn)
  have hstate : make_single_user_data ⟨L, [], f0⟩ =
      ⟨stamped f0 (L.take m) ++ L.drop m, (L.take m).map (fun o => (o.name, d)), f0 + m⟩ := by
    show (List.range L.length).foldl msudStep ⟨L, [], f0⟩ = _
    rw [show L.length = m + 1 from hm]
    rw [List.range_succ, List.foldl_append, msud_invariant L d f0 hAll hd m (by omega)]
    simp only [List.foldl_cons, List.foldl_nil]
    simp only [msudStep, hobj, hdid, if_neg hnguard]
  constructor
  · rw [hm1]
    exact hstate
  · intro o ho
    have hrw : uniquifyAndRestore L f0 =
        restore_shared (stamped f0 (L.take m) ++ L.drop m)
          ((L.take m).map (fun o => (o.name, d))) := by
      rw [uniquifyAndRestore, hstate]
    rw [hrw] at ho
    refine restore_shared_all_d d _ _ ?_ ?_ o ho
    · intro p hp
      rcases List.mem_map.mp hp with ⟨q, _, rfl⟩
      rfl
    · intro o2 ho2
      rcases List.mem_append.mp ho2 with hmem | hmem
      · right
        have hfst : (((L.take m).map (fun o => (o.name, d))).map Prod.fst) =
            (L.take m).map (fun o => o.name) := by
          rw [List.map_map]
          rfl
        rw [hfst]
        have h3 : o2.name ∈ (stamped f0 (L.take m)).map (fun o => o.name) :=
          List.mem_map_of_mem _ hmem
        rw [stamped_names] at h3
        exact h3
      · exact Or.inl (hAll o2 (List.drop_subset _ _ hmem)).1

/-- Three mesh nodes sharing payload `5`, no modifiers anywhere. -/
def shareScene3 : List UObj :=
  [⟨"A", "MESH", some 5, []⟩, ⟨"B", "MESH", some 5, []⟩, ⟨"C", "MESH", some 5, []⟩]

/-- Witness for C10 on a concrete three-sharer scene. -/
theorem make_single_user_data_shared_payload_witness :
    make_single_user_data ⟨shareScene3, [], 7⟩ =
      ⟨stamped 7 (shareScene3.take (shareScene3.length - 1)) ++
         shareScene3.drop (shareScene3.length - 1),
       (shareScene3.take (shareScene3.length - 1)).map (fun o => (o.name, 5)),
       7 + (shareScene3.length - 1)⟩ ∧
    ∀ o ∈ uniquifyAndRestore shareScene3 7, o.dataId = some 5 :=
  make_single_user_data_shared_payload shareScene3 5 7 (by decide) (by omega) (by decide)

end UnityFbx
